import Mathlib

/-!
Verification of the Wordle candidate-filtering engine.

The development shallowly embeds the two `Wordle` classes of the repository:
the `FrequentWords`-backed one (`wordle.h` delegating to `Words`/`FrequentWords`)
and the plain word-list one (the self-contained `Wordle` class holding a
`std::vector<std::string>`).  Words are lists of characters; the stores are
structures holding the word size and the candidate list; every filtering
member function becomes an explicit list `filter`; exceptions become an
`Except` whose error carries the store state at throw time (mirroring the C++
object state when an exception propagates).
-/

namespace WordleSpec

/-- A word: `std::string`, as a list of characters. -/
abbrev Word := List Char

/-- The NUL character (code point 0) written by the consumption loop in `update`. -/
def nullChar : Char := Char.ofNat 0

/-- Indexing `s[i]` on a `std::string` of size `> i`; reading one past the end of the
stored data yields NUL like `std::string::operator[]` at `size()`. -/
def charAt (s : Word) (i : Nat) : Char := s.getD i nullChar

/-- The check `status.find_first_not_of("byg") == std::string::npos`: every status
character is one of `b`, `y`, `g`. -/
def statusOk (status : Word) : Bool :=
  status.all (fun ch => ch == 'b' || ch == 'y' || ch == 'g')

/-- The exceptions thrown by the engine: `std::invalid_argument` from the
`update` precondition checks, and the index-validation error
(`std::runtime_error`) from `validate_index`. -/
inductive WordleError where
  | invalidArgument : String → WordleError
  | indexOutOfRange : String → WordleError
deriving DecidableEq

/-! ### The `FrequentWords` store (`include/words/frequent_words.h`)

`FrequentWords` keeps `_word_size` and `_word_count_list`, a vector of
(word, frequency) pairs.  Its private `filter(func)` removes every entry for
which `func` returns `true`; each public member passes the removal predicate
of the source.  We translate each member by the predicate it keeps. -/

structure FrequentWords where
  eachWordSize : Nat
  wordCountList : List (Word × Nat)
deriving DecidableEq

namespace FrequentWords

/-- Member `FrequentWords::filter(func)` (std::remove_if plus erase), stated by the
complement: keep exactly the entries where `p` holds. -/
def retain (fw : FrequentWords) (p : Word × Nat → Bool) : FrequentWords :=
  { fw with wordCountList := fw.wordCountList.filter p }

/-- The `FrequentWords(words, word_size)` constructor: stores the list and
removes every entry whose word length differs from `word_size`. -/
def init (wordSize : Nat) (words : List (Word × Nat)) : FrequentWords :=
  FrequentWords.retain ⟨wordSize, words⟩ (fun e => e.1.length == wordSize)

/-- Member `Words::validate_index`: `pos` must be less than `get_each_word_size()`,
otherwise an error with the message of `assert_statement`. -/
def validateIndex (fw : FrequentWords) (pos : Nat) : Except WordleError Unit :=
  if pos < fw.eachWordSize then .ok ()
  else .error (.indexOutOfRange
    ("Index [" ++ toString pos ++ "] must be less than word size [" ++
      toString fw.eachWordSize ++ "]"))

/-- Member `FrequentWords::exists(char c)`: removes entries whose word does not
contain `c`, i.e. keeps the entries containing `c`. -/
def existsChar (fw : FrequentWords) (c : Char) : FrequentWords :=
  fw.retain (fun e => e.1.contains c)

/-- Member `FrequentWords::exists(char c, std::size_t pos)`: validates `pos`, then
removes entries with `word[pos] != c`, i.e. keeps those with `word[pos] == c`.
The error carries the store unchanged, as the C++ object is when the
exception propagates. -/
def existsCharAt (fw : FrequentWords) (c : Char) (pos : Nat) :
    Except (WordleError × FrequentWords) FrequentWords :=
  match fw.validateIndex pos with
  | .error e => .error (e, fw)
  | .ok _ => .ok (fw.retain (fun e => charAt e.1 pos == c))

/-- Member `FrequentWords::does_not_exist(char c)`: removes entries whose word
contains `c`. -/
def doesNotExist (fw : FrequentWords) (c : Char) : FrequentWords :=
  fw.retain (fun e => !(e.1.contains c))

/-- Member `FrequentWords::does_not_exist(char c, std::size_t pos)`: validates `pos`,
then removes entries with `word[pos] == c`. -/
def doesNotExistAt (fw : FrequentWords) (c : Char) (pos : Nat) :
    Except (WordleError × FrequentWords) FrequentWords :=
  match fw.validateIndex pos with
  | .error e => .error (e, fw)
  | .ok _ => .ok (fw.retain (fun e => !(charAt e.1 pos == c)))

/-- Member `FrequentWords::remove_if_ge_n(char c, std::size_t n)`: removes entries
whose word has at least `n` occurrences of `c`, i.e. keeps those with fewer
than `n`. -/
def removeIfGeN (fw : FrequentWords) (c : Char) (n : Nat) : FrequentWords :=
  fw.retain (fun e => decide (e.1.count c < n))

/-- Member `FrequentWords::size()`: number of remaining candidate entries. -/
def size (fw : FrequentWords) : Nat := fw.wordCountList.length

end FrequentWords

/-! ### The `FrequentWords`-backed `Wordle` (`wordle.h`)

`Wordle::update(str, status)` checks the two preconditions with
`assert_statement<std::invalid_argument>`, then runs the per-position loop
over a mutable copy of `str`/`status`, calling the `Words` members. -/

/-- The message of the first `assert_statement` in `Wordle::update`
(length check). -/
def invalidLengthMsg (str status : Word) (wordSize : Nat) : String :=
  "Invalid number of characters in [" ++ str.asString ++ "], and/or [" ++
    status.asString ++ "], they must contain exactly [" ++ toString wordSize ++
    "] characters"

/-- The message of the second `assert_statement` in `Wordle::update`
(status-character check). -/
def invalidStatusMsg (status : Word) : String :=
  "Invalid status characters in [" ++ status.asString ++
    "], status characters must be from: [byg]"

/-- The inner `for (ii = 0; ii < _word_size; ++ii)` scan of the black branch:
for every position `ii` where `str[ii] == c`, a status of y calls
`does_not_exist(c, ii)` and bumps `y_count`, a status of g calls
`exists(c, ii)` and bumps `g_count`.  `rem` counts the remaining iterations,
`ii` is the current position. -/
def bScanAux (c : Char) (str status : Word) (rem ii y g : Nat)
    (fw : FrequentWords) :
    Except (WordleError × FrequentWords) (FrequentWords × Nat × Nat) :=
  match rem with
  | 0 => .ok (fw, y, g)
  | rem' + 1 =>
    if charAt str ii == c then
      if charAt status ii == 'y' then
        match fw.doesNotExistAt c ii with
        | .error e => .error e
        | .ok fw' => bScanAux c str status rem' (ii + 1) (y + 1) g fw'
      else if charAt status ii == 'g' then
        match fw.existsCharAt c ii with
        | .error e => .error e
        | .ok fw' => bScanAux c str status rem' (ii + 1) y (g + 1) fw'
      else bScanAux c str status rem' (ii + 1) y g fw
    else bScanAux c str status rem' (ii + 1) y g fw

/-- Consumption of a processed letter: a NUL write `str[itr] = 0` at every position
holding `c` (the `for (itr ...)` loop closing the black branch). -/
def consumeStr (c : Char) (str : Word) : Word :=
  str.map (fun ch => if ch == c then nullChar else ch)

/-- Consumption on the status string: a NUL write `status[itr] = 0` at every position
where `str[itr] == c`. -/
def consumeStatus (c : Char) (str status : Word) : Word :=
  List.zipWith (fun a b => if a == c then nullChar else b) str status

/-- The outer `for (i = 0; i < _word_size; ++i)` loop of `Wordle::update`,
on the `FrequentWords` store.  `rem` counts the remaining iterations and `i`
is the current position; the strings are the mutable copies being consumed. -/
def updateLoopAux (wordSize rem i : Nat) (str status : Word)
    (fw : FrequentWords) : Except (WordleError × FrequentWords) FrequentWords :=
  match rem with
  | 0 => .ok fw
  | rem' + 1 =>
    let c := charAt str i
    let s := charAt status i
    if s == 'b' then
      match fw.doesNotExistAt c i with
      | .error e => .error e
      | .ok fw1 =>
        match bScanAux c str status wordSize 0 0 0 fw1 with
        | .error e => .error e
        | .ok (fw2, y, g) =>
          let fw3 := if y == 0 && g == 0 then fw2.doesNotExist c else fw2
          let fw4 := if 0 < y then fw3.removeIfGeN c (y + 1) else fw3
          let fw5 := if 0 < g then fw4.removeIfGeN c (g + 1) else fw4
          updateLoopAux wordSize rem' (i + 1) (consumeStr c str)
            (consumeStatus c str status) fw5
    else if s == 'y' then
      match (fw.existsChar c).doesNotExistAt c i with
      | .error e => .error e
      | .ok fw' => updateLoopAux wordSize rem' (i + 1) str status fw'
    else if s == 'g' then
      match fw.existsCharAt c i with
      | .error e => .error e
      | .ok fw' => updateLoopAux wordSize rem' (i + 1) str status fw'
    else updateLoopAux wordSize rem' (i + 1) str status fw

namespace Wordle

/-- Member `Wordle::update` of the `FrequentWords`-backed class: the length
`assert_statement` first, the status-character `assert_statement` second,
then the filtering loop, returning `_word_ptr->size()`.  An error carries the
store state at throw time. -/
def update (wordSize : Nat) (fw : FrequentWords) (str status : Word) :
    Except (WordleError × FrequentWords) (Nat × FrequentWords) :=
  if !(str.length == wordSize && status.length == wordSize) then
    .error (.invalidArgument (invalidLengthMsg str status wordSize), fw)
  else if !(statusOk status) then
    .error (.invalidArgument (invalidStatusMsg status), fw)
  else
    match updateLoopAux wordSize wordSize 0 str status fw with
    | .error e => .error e
    | .ok fw' => .ok (fw'.size, fw')

end Wordle

/-! ### Word-level mirrors of the loop

Every member function the loop calls is a pure filter of the candidate list,
so one word survives a whole `update` exactly when it passes each filter.
The following definitions compute, for a single word, the survival predicate
the loop applies; they mirror `bScanAux`/`updateLoopAux` step for step. -/

/-- The final `(y_count, g_count)` of the inner scan of the black branch. -/
def bScanCountsAux (c : Char) (str status : Word) (rem ii y g : Nat) :
    Nat × Nat :=
  match rem with
  | 0 => (y, g)
  | rem' + 1 =>
    if charAt str ii == c then
      if charAt status ii == 'y' then
        bScanCountsAux c str status rem' (ii + 1) (y + 1) g
      else if charAt status ii == 'g' then
        bScanCountsAux c str status rem' (ii + 1) y (g + 1)
      else bScanCountsAux c str status rem' (ii + 1) y g
    else bScanCountsAux c str status rem' (ii + 1) y g

/-- Survival of one word through the filters applied by the inner scan of the
black branch: not at a yellow position of the letter, at each green position. -/
def bScanPredAux (c : Char) (str status : Word) (rem ii : Nat) (w : Word) :
    Bool :=
  match rem with
  | 0 => true
  | rem' + 1 =>
    if charAt str ii == c then
      if charAt status ii == 'y' then
        !(charAt w ii == c) && bScanPredAux c str status rem' (ii + 1) w
      else if charAt status ii == 'g' then
        (charAt w ii == c) && bScanPredAux c str status rem' (ii + 1) w
      else bScanPredAux c str status rem' (ii + 1) w
    else bScanPredAux c str status rem' (ii + 1) w

/-- Survival of one word through the rest of the `update` loop, starting at
position `i` with `rem` iterations left. -/
def survivesAux (wordSize rem i : Nat) (str status : Word) (w : Word) : Bool :=
  match rem with
  | 0 => true
  | rem' + 1 =>
    let c := charAt str i
    let s := charAt status i
    if s == 'b' then
      let yg := bScanCountsAux c str status wordSize 0 0 0
      !(charAt w i == c) &&
      bScanPredAux c str status wordSize 0 w &&
      (if yg.1 == 0 && yg.2 == 0 then !(w.contains c) else true) &&
      (if 0 < yg.1 then decide (w.count c < yg.1 + 1) else true) &&
      (if 0 < yg.2 then decide (w.count c < yg.2 + 1) else true) &&
      survivesAux wordSize rem' (i + 1) (consumeStr c str)
        (consumeStatus c str status) w
    else if s == 'y' then
      w.contains c && !(charAt w i == c) &&
      survivesAux wordSize rem' (i + 1) str status w
    else if s == 'g' then
      (charAt w i == c) && survivesAux wordSize rem' (i + 1) str status w
    else survivesAux wordSize rem' (i + 1) str status w

/-- Survival of one word through a full `update(str, status)` call. -/
def survives (wordSize : Nat) (str status w : Word) : Bool :=
  survivesAux wordSize wordSize 0 str status w

/-- The re-check rule of section 4.1 of the specification, as literally
worded there, for one word: green forces `guess[i]` at `i`; yellow forces the
letter present but not at `i`; black removes the letter at `i`, then with
`presentCount`/`greenCount` taken over the positions sharing the letter
applies the entirely-absent rule (both zero) or the occurrence caps,
and the positions sharing the letter are consumed.  The bullets of the rule
are mutually exclusive, so the order in which they are tested is
irrelevant. -/
def specConsistentAux (wordSize rem i : Nat) (str status : Word) (w : Word) :
    Bool :=
  match rem with
  | 0 => true
  | rem' + 1 =>
    let c := charAt str i
    let s := charAt status i
    if s == 'b' then
      let yg := bScanCountsAux c str status wordSize 0 0 0
      !(charAt w i == c) &&
      (if yg.1 == 0 && yg.2 == 0 then !(w.contains c) else true) &&
      (if 0 < yg.1 then decide (w.count c < yg.1 + 1) else true) &&
      (if 0 < yg.2 then decide (w.count c < yg.2 + 1) else true) &&
      specConsistentAux wordSize rem' (i + 1) (consumeStr c str)
        (consumeStatus c str status) w
    else if s == 'y' then
      w.contains c && !(charAt w i == c) &&
      specConsistentAux wordSize rem' (i + 1) str status w
    else if s == 'g' then
      (charAt w i == c) && specConsistentAux wordSize rem' (i + 1) str status w
    else specConsistentAux wordSize rem' (i + 1) str status w

/-- Consistency of one word with one `(guess, feedback)` pair under the rule
of section 4.1 of the specification. -/
def specConsistent (wordSize : Nat) (str status w : Word) : Bool :=
  specConsistentAux wordSize wordSize 0 str status w

/-- Sequential `update` calls, one per `(guess, feedback)` pair, chaining the
store state (the counts the calls return are discarded). -/
def applyUpdates (wordSize : Nat) :
    List (Word × Word) → FrequentWords →
      Except (WordleError × FrequentWords) FrequentWords
  | [], fw => .ok fw
  | p :: rest, fw =>
    match Wordle.update wordSize fw p.1 p.2 with
    | .error e => .error e
    | .ok (_, fw') => applyUpdates wordSize rest fw'

/-- One-pass consistency of a word with a full history of
`(guess, feedback)` pairs. -/
def batchConsistent (wordSize : Nat) (pairs : List (Word × Word)) (w : Word) :
    Bool :=
  pairs.all (fun p => survives wordSize p.1 p.2 w)

/-! ### The plain word-list `Wordle` (the self-contained class)

This class holds `_word_size` and `_words : std::vector<std::string>`; its
`filter` erases matching words in place (making them empty) and `clean_up`
drops the empty strings. -/

structure PlainWordle where
  wordSize : Nat
  words : List Word
deriving DecidableEq

namespace PlainWordle

/-- Member `Wordle::clean_up`: removes the empty strings from the vector. -/
def cleanUp (ws : List Word) : List Word := ws.filter (fun w => !w.isEmpty)

/-- Member `Wordle::filter(func)`: erase every word for which `func` is true, then
`clean_up`. -/
def filterOut (pw : PlainWordle) (p : Word → Bool) : PlainWordle :=
  { pw with words := cleanUp (pw.words.map (fun w => if p w then [] else w)) }

/-- The `Wordle(word_size, words)` constructor: keeps exactly the supplied
words whose size equals `word_size`, in order. -/
def init (wordSize : Nat) (ws : List Word) : PlainWordle :=
  ⟨wordSize, ws.filter (fun w => w.length == wordSize)⟩

/-- Member `Wordle::validate_index`: `index` must be less than `_word_size`. -/
def validateIndex (pw : PlainWordle) (index : Nat) : Except WordleError Unit :=
  if index < pw.wordSize then .ok ()
  else .error (.indexOutOfRange
    ("char index: [" ++ toString index ++ "] must be less than word size: [" ++
      toString pw.wordSize ++ "]\n"))

/-- Member `Wordle::exists(char c)`: removes words not containing `c`. -/
def existsChar (pw : PlainWordle) (c : Char) : PlainWordle :=
  pw.filterOut (fun w => !(w.contains c))

/-- Member `Wordle::exists(char c, std::size_t index)`: validates, then removes
words with `word[index] != c`. -/
def existsCharAt (pw : PlainWordle) (c : Char) (index : Nat) :
    Except (WordleError × PlainWordle) PlainWordle :=
  match pw.validateIndex index with
  | .error e => .error (e, pw)
  | .ok _ => .ok (pw.filterOut (fun w => !(charAt w index == c)))

/-- Member `Wordle::remove(char c, std::size_t index)`: validates, then removes
words with `word[index] == c`. -/
def removeAt (pw : PlainWordle) (c : Char) (index : Nat) :
    Except (WordleError × PlainWordle) PlainWordle :=
  match pw.validateIndex index with
  | .error e => .error (e, pw)
  | .ok _ => .ok (pw.filterOut (fun w => charAt w index == c))

/-- Member `Wordle::remove(char c)`: removes words containing `c`. -/
def removeChar (pw : PlainWordle) (c : Char) : PlainWordle :=
  pw.filterOut (fun w => w.contains c)

/-- Member `Wordle::remove_n(char c, std::size_t n)`: removes words with at least
`n` occurrences of `c`. -/
def removeN (pw : PlainWordle) (c : Char) (n : Nat) : PlainWordle :=
  pw.filterOut (fun w => decide (n ≤ w.count c))

/-- The inner scan of the black branch in the plain class (`remove(c, ii)` on
a status of y, `exists(c, ii)` on one of g). -/
def bScanAux (c : Char) (str status : Word) (rem ii y g : Nat)
    (pw : PlainWordle) :
    Except (WordleError × PlainWordle) (PlainWordle × Nat × Nat) :=
  match rem with
  | 0 => .ok (pw, y, g)
  | rem' + 1 =>
    if charAt str ii == c then
      if charAt status ii == 'y' then
        match pw.removeAt c ii with
        | .error e => .error e
        | .ok pw' => bScanAux c str status rem' (ii + 1) (y + 1) g pw'
      else if charAt status ii == 'g' then
        match pw.existsCharAt c ii with
        | .error e => .error e
        | .ok pw' => bScanAux c str status rem' (ii + 1) y (g + 1) pw'
      else bScanAux c str status rem' (ii + 1) y g pw
    else bScanAux c str status rem' (ii + 1) y g pw

/-- The outer loop of the plain `Wordle::update`. -/
def updateLoopAux (wordSize rem i : Nat) (str status : Word)
    (pw : PlainWordle) : Except (WordleError × PlainWordle) PlainWordle :=
  match rem with
  | 0 => .ok pw
  | rem' + 1 =>
    let c := charAt str i
    let s := charAt status i
    if s == 'b' then
      match pw.removeAt c i with
      | .error e => .error e
      | .ok pw1 =>
        match bScanAux c str status wordSize 0 0 0 pw1 with
        | .error e => .error e
        | .ok (pw2, y, g) =>
          let pw3 := if y == 0 && g == 0 then pw2.removeChar c else pw2
          let pw4 := if 0 < y then pw3.removeN c (y + 1) else pw3
          let pw5 := if 0 < g then pw4.removeN c (g + 1) else pw4
          updateLoopAux wordSize rem' (i + 1) (consumeStr c str)
            (consumeStatus c str status) pw5
    else if s == 'y' then
      match (pw.existsChar c).removeAt c i with
      | .error e => .error e
      | .ok pw' => updateLoopAux wordSize rem' (i + 1) str status pw'
    else if s == 'g' then
      match pw.existsCharAt c i with
      | .error e => .error e
      | .ok pw' => updateLoopAux wordSize rem' (i + 1) str status pw'
    else updateLoopAux wordSize rem' (i + 1) str status pw

/-- The status-character error message of the plain `Wordle::update` (built
with an `ostringstream`, hence the trailing newline). -/
def plainInvalidStatusMsg (status : Word) : String :=
  "Invalid status characters in [" ++ status.asString ++
    "], status characters must be from: [byg]\n"

/-- The length error message of the plain `Wordle::update`. -/
def plainInvalidLengthMsg (str status : Word) (wordSize : Nat) : String :=
  "Invalid number of characters in [" ++ str.asString ++ "], and [" ++
    status.asString ++ "], they must contain exactly [" ++ toString wordSize ++
    "] characters\n"

/-- The plain `Wordle::update`: it checks the status characters FIRST, the
lengths second, runs the loop, then `return clean_up().size()`. -/
def update (pw : PlainWordle) (str status : Word) :
    Except (WordleError × PlainWordle) (Nat × PlainWordle) :=
  if !(statusOk status) then
    .error (.invalidArgument (plainInvalidStatusMsg status), pw)
  else if !(str.length == pw.wordSize && status.length == pw.wordSize) then
    .error (.invalidArgument (plainInvalidLengthMsg str status pw.wordSize), pw)
  else
    match updateLoopAux pw.wordSize pw.wordSize 0 str status pw with
    | .error e => .error e
    | .ok pw' =>
      .ok ((cleanUp pw'.words).length, { pw' with words := cleanUp pw'.words })

end PlainWordle

/-- Shorthand: the character list of a string literal. -/
def chars (s : String) : Word := s.toList

/-- The 3-letter candidate store of the `SimpleTest` of the repository
(`{"abc","bcd","pqr","abf","abr"}`, each with frequency 1). -/
def exampleStore : FrequentWords :=
  FrequentWords.init 3 [(chars "abc", 1), (chars "bcd", 1), (chars "pqr", 1),
    (chars "abf", 1), (chars "abr", 1)]

/-- A 3-letter plain store with the same words. -/
def examplePlainStore : PlainWordle :=
  PlainWordle.init 3 [chars "abc", chars "bcd", chars "pqr", chars "abf",
    chars "abr"]

/-! ### Basic lemmas about the store operations -/

namespace FrequentWords

theorem retain_eachWordSize (fw : FrequentWords) (p : Word × Nat → Bool) :
    (fw.retain p).eachWordSize = fw.eachWordSize := rfl

theorem retain_true (fw : FrequentWords) : fw.retain (fun _ => true) = fw := by
  simp [retain]

theorem retain_retain (fw : FrequentWords) (p q : Word × Nat → Bool) :
    (fw.retain p).retain q = fw.retain (fun e => p e && q e) := by
  simp only [retain, List.filter_filter]
  congr 1
  exact List.filter_congr (fun a _ => Bool.and_comm _ _)

theorem retain_ite (fw : FrequentWords) (c : Prop) [Decidable c]
    (p : Word × Nat → Bool) :
    (if c then fw.retain p else fw) =
      fw.retain (fun e => if c then p e else true) := by
  by_cases h : c
  · simp [h]
  · simp [h, retain]

theorem doesNotExistAt_ok (fw : FrequentWords) (c : Char) (pos : Nat)
    (h : pos < fw.eachWordSize) :
    fw.doesNotExistAt c pos =
      .ok (fw.retain (fun e => !(charAt e.1 pos == c))) := by
  simp [doesNotExistAt, validateIndex, h]

theorem existsCharAt_ok (fw : FrequentWords) (c : Char) (pos : Nat)
    (h : pos < fw.eachWordSize) :
    fw.existsCharAt c pos =
      .ok (fw.retain (fun e => charAt e.1 pos == c)) := by
  simp [existsCharAt, validateIndex, h]

end FrequentWords

/-- The inner scan of the black branch never fails while its indices stay
below the word size of the store, and it amounts to one filter by
`bScanPredAux` together with the counts `bScanCountsAux`. -/
theorem bScanAux_eq (c : Char) (str status : Word) :
    ∀ (rem ii y g : Nat) (fw : FrequentWords), ii + rem ≤ fw.eachWordSize →
      bScanAux c str status rem ii y g fw =
        .ok (fw.retain (fun e => bScanPredAux c str status rem ii e.1),
             bScanCountsAux c str status rem ii y g) := by
  intro rem
  induction rem with
  | zero =>
    intro ii y g fw _
    simp [bScanAux, bScanPredAux, bScanCountsAux, FrequentWords.retain_true]
  | succ n ih =>
    intro ii y g fw h
    have hii : ii < fw.eachWordSize := by omega
    by_cases hc : (charAt str ii == c) = true
    · by_cases hy : (charAt status ii == 'y') = true
      · rw [bScanAux, if_pos hc, if_pos hy,
          FrequentWords.doesNotExistAt_ok fw c ii hii]
        change bScanAux c str status n (ii + 1) (y + 1) g _ = _
        rw [ih (ii + 1) (y + 1) g _
          (by simp only [FrequentWords.retain_eachWordSize]; omega)]
        simp only [FrequentWords.retain_retain]
        simp only [bScanPredAux, bScanCountsAux]
        simp [hc, hy]
      · by_cases hg : (charAt status ii == 'g') = true
        · rw [bScanAux, if_pos hc, if_neg hy, if_pos hg,
            FrequentWords.existsCharAt_ok fw c ii hii]
          change bScanAux c str status n (ii + 1) y (g + 1) _ = _
          rw [ih (ii + 1) y (g + 1) _
            (by simp only [FrequentWords.retain_eachWordSize]; omega)]
          simp only [FrequentWords.retain_retain]
          simp only [bScanPredAux, bScanCountsAux]
          simp [hc, hy, hg]
        · rw [bScanAux, if_pos hc, if_neg hy, if_neg hg,
            ih (ii + 1) y g fw (by omega)]
          simp only [bScanPredAux, bScanCountsAux]
          simp [hc, hy, hg]
    · rw [bScanAux, if_neg hc, ih (ii + 1) y g fw (by omega)]
      simp only [bScanPredAux, bScanCountsAux]
      simp [hc]

/-- The `update` loop never fails while the word size of the store equals the loop
bound, and it amounts to one filter of the candidate list by `survivesAux`. -/
theorem updateLoopAux_eq (wordSize : Nat) :
    ∀ (rem i : Nat) (str status : Word) (fw : FrequentWords),
      fw.eachWordSize = wordSize → i + rem ≤ wordSize →
      updateLoopAux wordSize rem i str status fw =
        .ok (fw.retain
          (fun e => survivesAux wordSize rem i str status e.1)) := by
  intro rem
  induction rem with
  | zero =>
    intro i str status fw _ _
    simp [updateLoopAux, survivesAux, FrequentWords.retain_true]
  | succ n ih =>
    intro i str status fw hsz hle
    have hi : i < fw.eachWordSize := by omega
    have hszR : ∀ p, (FrequentWords.retain fw p).eachWordSize = wordSize :=
      fun _ => hsz
    by_cases hb : (charAt status i == 'b') = true
    · rcases hyg : bScanCountsAux (charAt str i) str status wordSize 0 0 0
        with ⟨y, g⟩
      have hscan := bScanAux_eq (charAt str i) str status wordSize 0 0 0
        (fw.retain (fun e => !(charAt e.1 i == charAt str i)))
        (by simp only [FrequentWords.retain_eachWordSize]; omega)
      rw [hyg] at hscan
      simp only [updateLoopAux, hb, if_true,
        FrequentWords.doesNotExistAt_ok fw (charAt str i) i hi, hscan]
      simp only [FrequentWords.doesNotExist, FrequentWords.removeIfGeN]
      simp only [FrequentWords.retain_ite]
      simp only [FrequentWords.retain_retain]
      rw [ih (i + 1) (consumeStr (charAt str i) str)
        (consumeStatus (charAt str i) str status) _ (hszR _) (by omega)]
      simp only [FrequentWords.retain_retain]
      simp only [survivesAux, hb, if_true, hyg]
    · by_cases hy : (charAt status i == 'y') = true
      · simp only [updateLoopAux, hb, hy, if_true, if_false,
          Bool.false_eq_true, FrequentWords.existsChar,
          FrequentWords.doesNotExistAt_ok
            (fw.retain (fun e => e.1.contains (charAt str i)))
            (charAt str i) i hi]
        simp only [FrequentWords.retain_retain]
        rw [ih (i + 1) str status _ (hszR _) (by omega)]
        simp only [FrequentWords.retain_retain]
        simp only [survivesAux, hb, hy, if_true, if_false, Bool.false_eq_true]
      · by_cases hg : (charAt status i == 'g') = true
        · simp only [updateLoopAux, hb, hy, hg, if_true, if_false,
            Bool.false_eq_true,
            FrequentWords.existsCharAt_ok fw (charAt str i) i hi]
          rw [ih (i + 1) str status _ (hszR _) (by omega)]
          simp only [FrequentWords.retain_retain]
          simp only [survivesAux, hb, hy, hg, if_true, if_false,
            Bool.false_eq_true]
        · simp only [updateLoopAux, hb, hy, hg, if_false, Bool.false_eq_true]
          rw [ih (i + 1) str status fw hsz (by omega)]
          simp only [survivesAux, hb, hy, hg, if_false, Bool.false_eq_true]

/-- A valid `update` call, on a store whose word size matches the session
word size, succeeds and filters the candidate list by `survives`. -/
theorem update_eq_filter (wordSize : Nat) (fw : FrequentWords)
    (str status : Word) (hsz : fw.eachWordSize = wordSize)
    (hstr : str.length = wordSize) (hstat : status.length = wordSize)
    (hok : statusOk status = true) :
    Wordle.update wordSize fw str status =
      .ok ((fw.retain (fun e => survives wordSize str status e.1)).size,
        fw.retain (fun e => survives wordSize str status e.1)) := by
  unfold Wordle.update
  rw [updateLoopAux_eq wordSize wordSize 0 str status fw hsz (by omega)]
  simp [hstr, hstat, hok, survives]

/-- Whenever `does_not_exist(c, pos)` returns normally, its result is the
positional filter of its input. -/
theorem doesNotExistAt_ok_elim (fw fw' : FrequentWords) (c : Char) (pos : Nat)
    (h : fw.doesNotExistAt c pos = .ok fw') :
    fw' = fw.retain (fun e => !(charAt e.1 pos == c)) := by
  unfold FrequentWords.doesNotExistAt FrequentWords.validateIndex at h
  by_cases hp : pos < fw.eachWordSize
  · simp [hp] at h
    exact h.symm
  · simp [hp] at h

/-- Whenever `exists(c, pos)` returns normally, its result is the positional
filter of its input. -/
theorem existsCharAt_ok_elim (fw fw' : FrequentWords) (c : Char) (pos : Nat)
    (h : fw.existsCharAt c pos = .ok fw') :
    fw' = fw.retain (fun e => charAt e.1 pos == c) := by
  unfold FrequentWords.existsCharAt FrequentWords.validateIndex at h
  by_cases hp : pos < fw.eachWordSize
  · simp [hp] at h
    exact h.symm
  · simp [hp] at h

/-- Whatever the inner scan of the black branch does on success, the
resulting candidate list is a sublist of the input one (no size hypothesis:
this holds for every store). -/
theorem bScanAux_sublist (c : Char) (str status : Word) :
    ∀ (rem ii y g : Nat) (fw fw' : FrequentWords) (y' g' : Nat),
      bScanAux c str status rem ii y g fw = .ok (fw', y', g') →
      List.Sublist fw'.wordCountList fw.wordCountList := by
  intro rem
  induction rem with
  | zero =>
    intro ii y g fw fw' y' g' h
    simp only [bScanAux, Except.ok.injEq, Prod.mk.injEq] at h
    rw [← h.1]
  | succ n ih =>
    intro ii y g fw fw' y' g' h
    rw [bScanAux] at h
    by_cases hc : (charAt str ii == c) = true
    · rw [if_pos hc] at h
      by_cases hy : (charAt status ii == 'y') = true
      · rw [if_pos hy] at h
        cases hop : fw.doesNotExistAt c ii with
        | error e => rw [hop] at h; exact absurd h (by simp)
        | ok fwm =>
          rw [hop] at h
          have hsub := ih (ii + 1) (y + 1) g fwm fw' y' g' (by exact h)
          rw [doesNotExistAt_ok_elim fw fwm c ii hop] at hsub
          exact hsub.trans (List.filter_sublist _)
      · by_cases hg : (charAt status ii == 'g') = true
        · rw [if_neg hy, if_pos hg] at h
          cases hop : fw.existsCharAt c ii with
          | error e => rw [hop] at h; exact absurd h (by simp)
          | ok fwm =>
            rw [hop] at h
            have hsub := ih (ii + 1) y (g + 1) fwm fw' y' g' (by exact h)
            rw [existsCharAt_ok_elim fw fwm c ii hop] at hsub
            exact hsub.trans (List.filter_sublist _)
        · rw [if_neg hy, if_neg hg] at h
          exact ih (ii + 1) y g fw fw' y' g' h
    · rw [if_neg hc] at h
      exact ih (ii + 1) y g fw fw' y' g' h

/-- Whatever the `update` loop does on success, the resulting candidate list
is a sublist of the input one (again with no size hypothesis). -/
theorem updateLoopAux_sublist (wordSize : Nat) :
    ∀ (rem i : Nat) (str status : Word) (fw fw' : FrequentWords),
      updateLoopAux wordSize rem i str status fw = .ok fw' →
      List.Sublist fw'.wordCountList fw.wordCountList := by
  intro rem
  induction rem with
  | zero =>
    intro i str status fw fw' h
    simp only [updateLoopAux, Except.ok.injEq] at h
    rw [← h]
  | succ n ih =>
    intro i str status fw fw' h
    rw [updateLoopAux] at h
    by_cases hb : (charAt status i == 'b') = true
    · rw [if_pos hb] at h
      cases hop : fw.doesNotExistAt (charAt str i) i with
      | error e => rw [hop] at h; exact absurd h (by simp)
      | ok fw1 =>
        rw [hop] at h
        have h1 : List.Sublist fw1.wordCountList fw.wordCountList := by
          rw [doesNotExistAt_ok_elim fw fw1 (charAt str i) i hop]
          exact List.filter_sublist _
        revert h
        change (match bScanAux (charAt str i) str status wordSize 0 0 0 fw1
            with
          | .error e => Except.error e
          | .ok (fw2, y, g) => _) = _ → _
        cases hscan : bScanAux (charAt str i) str status wordSize 0 0 0 fw1
          with
        | error e => intro h; exact absurd h (by simp)
        | ok r =>
          rcases r with ⟨fw2, y, g⟩
          intro h
          have h2 := bScanAux_sublist (charAt str i) str status wordSize 0 0 0
            fw1 fw2 y g hscan
          have h5 : List.Sublist
              ((if 0 < g then
                  FrequentWords.removeIfGeN
                    (if 0 < y then
                      FrequentWords.removeIfGeN
                        (if y == 0 && g == 0 then
                          fw2.doesNotExist (charAt str i) else fw2)
                        (charAt str i) (y + 1)
                    else if y == 0 && g == 0 then
                      fw2.doesNotExist (charAt str i) else fw2)
                    (charAt str i) (g + 1)
                else if 0 < y then
                  FrequentWords.removeIfGeN
                    (if y == 0 && g == 0 then
                      fw2.doesNotExist (charAt str i) else fw2)
                    (charAt str i) (y + 1)
                else if y == 0 && g == 0 then
                  fw2.doesNotExist (charAt str i) else fw2).wordCountList)
              fw2.wordCountList := by
            simp only [FrequentWords.doesNotExist, FrequentWords.removeIfGeN]
            simp only [FrequentWords.retain_ite]
            simp only [FrequentWords.retain]
            exact ((List.filter_sublist _).trans
              (List.filter_sublist _)).trans (List.filter_sublist _)
          have h6 := ih (i + 1) (consumeStr (charAt str i) str)
            (consumeStatus (charAt str i) str status) _ fw' (by exact h)
          exact ((h6.trans h5).trans h2).trans h1
    · by_cases hy : (charAt status i == 'y') = true
      · rw [if_neg hb, if_pos hy] at h
        cases hop : (fw.existsChar (charAt str i)).doesNotExistAt
            (charAt str i) i with
        | error e => rw [hop] at h; exact absurd h (by simp)
        | ok fwm =>
          rw [hop] at h
          have hsub := ih (i + 1) str status fwm fw' (by exact h)
          rw [doesNotExistAt_ok_elim _ fwm (charAt str i) i hop] at hsub
          exact hsub.trans
            ((List.filter_sublist _).trans (List.filter_sublist _))
      · by_cases hg : (charAt status i == 'g') = true
        · rw [if_neg hb, if_neg hy, if_pos hg] at h
          cases hop : fw.existsCharAt (charAt str i) i with
          | error e => rw [hop] at h; exact absurd h (by simp)
          | ok fwm =>
            rw [hop] at h
            have hsub := ih (i + 1) str status fwm fw' (by exact h)
            rw [existsCharAt_ok_elim fw fwm (charAt str i) i hop] at hsub
            exact hsub.trans (List.filter_sublist _)
        · rw [if_neg hb, if_neg hy, if_neg hg] at h
          exact ih (i + 1) str status fw fw' h

/-- When the guess or the status has the wrong length, the
`FrequentWords`-backed `update` fails at its first `assert_statement`, with
the length message, before touching the store. -/
theorem update_error_length (wordSize : Nat) (fw : FrequentWords)
    (str status : Word)
    (h : ¬(str.length = wordSize ∧ status.length = wordSize)) :
    Wordle.update wordSize fw str status =
      .error (.invalidArgument (invalidLengthMsg str status wordSize), fw) := by
  unfold Wordle.update
  have hb : (str.length == wordSize && status.length == wordSize) = false := by
    by_cases h1 : str.length = wordSize
    · by_cases h2 : status.length = wordSize
      · exact absurd ⟨h1, h2⟩ h
      · simp [h2]
    · simp [h1]
  rw [if_pos (by simp [hb])]

/-- With correct lengths but a status character outside `byg`, the
`FrequentWords`-backed `update` fails at its second `assert_statement`, with
the status-character message, before touching the store. -/
theorem update_error_status (wordSize : Nat) (fw : FrequentWords)
    (str status : Word) (h1 : str.length = wordSize)
    (h2 : status.length = wordSize) (h3 : statusOk status = false) :
    Wordle.update wordSize fw str status =
      .error (.invalidArgument (invalidStatusMsg status), fw) := by
  unfold Wordle.update
  rw [if_neg (by simp [h1, h2]), if_pos (by simp [h3])]

/-- Every word surviving the loop filters satisfies the section 4.1 rule:
the loop applies every filter that rule demands (and, during the scan of the
black branch, a few more). -/
theorem survivesAux_imp_spec (wordSize : Nat) :
    ∀ (rem i : Nat) (str status w : Word),
      survivesAux wordSize rem i str status w = true →
      specConsistentAux wordSize rem i str status w = true := by
  intro rem
  induction rem with
  | zero =>
    intro i str status w _
    rw [specConsistentAux]
  | succ n ih =>
    intro i str status w h
    rw [survivesAux] at h
    rw [specConsistentAux]
    by_cases hb : (charAt status i == 'b') = true
    · simp only [hb, if_true, Bool.and_eq_true] at h ⊢
      obtain ⟨⟨⟨⟨⟨h1, _⟩, h3⟩, h4⟩, h5⟩, h6⟩ := h
      exact ⟨⟨⟨⟨h1, h3⟩, h4⟩, h5⟩, ih _ _ _ _ h6⟩
    · by_cases hy : (charAt status i == 'y') = true
      · simp only [hb, hy, if_true, if_false, Bool.false_eq_true,
          Bool.and_eq_true] at h ⊢
        exact ⟨h.1, ih _ _ _ _ h.2⟩
      · by_cases hg : (charAt status i == 'g') = true
        · simp only [hb, hy, hg, if_true, if_false, Bool.false_eq_true,
            Bool.and_eq_true] at h ⊢
          exact ⟨h.1, ih _ _ _ _ h.2⟩
        · simp only [hb, hy, hg, if_false, Bool.false_eq_true] at h ⊢
          exact ih _ _ _ _ h

/-- With an all-green status string, the loop keeps exactly the words that
agree with the guess at every position from `i` on. -/
theorem survivesAux_all_green (wordSize : Nat) (guess w : Word) :
    ∀ (rem i : Nat), i + rem = wordSize →
      (survivesAux wordSize rem i guess (List.replicate wordSize 'g') w
          = true ↔
        ∀ j, i ≤ j → j < wordSize → charAt w j = charAt guess j) := by
  intro rem
  induction rem with
  | zero =>
    intro i hi
    rw [survivesAux]
    constructor
    · intro _ j hji hjw
      exact absurd hjw (by omega)
    · intro _
      rfl
  | succ n ih =>
    intro i hi
    have hlt : i < wordSize := by omega
    have hg : charAt (List.replicate wordSize 'g') i = 'g' := by
      simp [charAt, List.getD, List.getElem?_replicate, hlt]
    have hstep : survivesAux wordSize (n + 1) i guess
        (List.replicate wordSize 'g') w =
        ((charAt w i == charAt guess i) &&
          survivesAux wordSize n (i + 1) guess
            (List.replicate wordSize 'g') w) := by
      rw [survivesAux]
      simp [hg]
    rw [hstep, Bool.and_eq_true, beq_iff_eq, ih (i + 1) (by omega)]
    constructor
    · rintro ⟨h1, h2⟩ j hji hjw
      rcases Nat.lt_or_ge j (i + 1) with hj | hj
      · have hje : j = i := by omega
        rw [hje]
        exact h1
      · exact h2 j hj hjw
    · intro hall
      exact ⟨hall i le_rfl hlt, fun j hj hjw => hall j (by omega) hjw⟩

/-- Agreement of `charAt` on every position below the common length is
equality of the words. -/
theorem charAt_eq_iff_eq (n : Nat) (w guess : Word) (hw : w.length = n)
    (hg : guess.length = n) :
    (∀ j, 0 ≤ j → j < n → charAt w j = charAt guess j) ↔ w = guess := by
  constructor
  · intro h
    apply List.ext_getElem (by omega)
    intro i h1 h2
    have hc := h i (Nat.zero_le i) (by omega)
    rwa [charAt, charAt, List.getD_eq_getElem w nullChar h1,
      List.getD_eq_getElem guess nullChar h2] at hc
  · rintro rfl j _ _
    rfl

/-- Equal truth conditions make equal booleans. -/
theorem bool_eq_of_iff (a b : Bool) (h : a = true ↔ b = true) : a = b := by
  cases a <;> cases b <;> simp_all

/-! ### The claims -/

/-- C1: for every candidate store (word size matching the session) and
every valid `(guess, feedback)` pair, after `update(guess, feedback)` every
word remaining in the candidate set, independently re-checked against the
rule of section 4.1 (`specConsistent`), satisfies that rule — there are no
false survivors. -/
theorem c1_no_false_survivors (wordSize : Nat) (fw : FrequentWords)
    (str status : Word) (n : Nat) (fw' : FrequentWords)
    (hsz : fw.eachWordSize = wordSize)
    (hstr : str.length = wordSize) (hstat : status.length = wordSize)
    (hok : statusOk status = true)
    (hup : Wordle.update wordSize fw str status = .ok (n, fw')) :
    ∀ e ∈ fw'.wordCountList, specConsistent wordSize str status e.1 = true := by
  rw [update_eq_filter wordSize fw str status hsz hstr hstat hok] at hup
  simp only [Except.ok.injEq, Prod.mk.injEq] at hup
  intro e he
  rw [← hup.2] at he
  have hs := (List.mem_filter.mp he).2
  exact survivesAux_imp_spec wordSize wordSize 0 str status e.1 hs

/-- C1 witness: the first `SimpleTest` call of the repository,
`update("abf","ggb")` on `{"abc","bcd","pqr","abf","abr"}`, leaves
`{"abc","abr"}`, and the survivor `"abc"` passes the section 4.1
re-check. -/
theorem c1_no_false_survivors_witness :
    specConsistent 3 (chars "abf") (chars "ggb") (chars "abc") = true :=
  c1_no_false_survivors 3 exampleStore (chars "abf") (chars "ggb") 2
    ⟨3, [(chars "abc", 1), (chars "abr", 1)]⟩ rfl rfl rfl rfl rfl
    (chars "abc", 1) (by decide)

/-- C3: one successful `update` call only removes candidates: the resulting
candidate list is a sublist of the previous one (hence `size()` after call
n+1 is at most `size()` after call n along any sequence of calls), and the
returned count is the new size. -/
theorem c3_monotonic (wordSize : Nat) (fw : FrequentWords)
    (str status : Word) (n : Nat) (fw' : FrequentWords)
    (hup : Wordle.update wordSize fw str status = .ok (n, fw')) :
    List.Sublist fw'.wordCountList fw.wordCountList ∧
      fw'.wordCountList.length ≤ fw.wordCountList.length ∧
      n = fw'.wordCountList.length := by
  unfold Wordle.update at hup
  by_cases h1 : (!(str.length == wordSize && status.length == wordSize))
      = true
  · rw [if_pos h1] at hup
    exact absurd hup (by simp)
  · rw [if_neg h1] at hup
    by_cases h2 : (!(statusOk status)) = true
    · rw [if_pos h2] at hup
      exact absurd hup (by simp)
    · rw [if_neg h2] at hup
      cases hloop : updateLoopAux wordSize wordSize 0 str status fw with
      | error e =>
        rw [hloop] at hup
        exact absurd hup (by simp)
      | ok fw2 =>
        rw [hloop] at hup
        simp only [Except.ok.injEq, Prod.mk.injEq] at hup
        obtain ⟨hn, hfw⟩ := hup
        have hs := updateLoopAux_sublist wordSize wordSize 0 str status fw
          fw2 hloop
        rw [← hfw]
        exact ⟨hs, hs.length_le, hn.symm⟩

/-- C3 witness: on the `SimpleTest` store, `update("abf","ggb")` returns 2
and the remaining list `{"abc","abr"}` is a sublist of the original. -/
theorem c3_monotonic_witness :
    List.Sublist (⟨3, [(chars "abc", 1), (chars "abr", 1)]⟩ :
        FrequentWords).wordCountList exampleStore.wordCountList ∧
      (⟨3, [(chars "abc", 1), (chars "abr", 1)]⟩ :
        FrequentWords).wordCountList.length ≤
        exampleStore.wordCountList.length ∧
      2 = (⟨3, [(chars "abc", 1), (chars "abr", 1)]⟩ :
        FrequentWords).wordCountList.length :=
  c3_monotonic 3 exampleStore (chars "abf") (chars "ggb") 2
    ⟨3, [(chars "abc", 1), (chars "abr", 1)]⟩ rfl

/-- C5: on a store whose word size matches, `update(guess, status)` fails
with an `InvalidArgument` error exactly when the guess or the status has the
wrong length or the status has a character outside `byg`; every failure is an
`InvalidArgument` carrying the store unchanged (no partial filtering). -/
theorem c5_error_iff (wordSize : Nat) (fw : FrequentWords)
    (str status : Word) (hsz : fw.eachWordSize = wordSize) :
    (∀ e st, Wordle.update wordSize fw str status = .error (e, st) →
      st = fw ∧ ∃ msg, e = .invalidArgument msg) ∧
    ((∃ p, Wordle.update wordSize fw str status = .error p) ↔
      ¬(str.length = wordSize ∧ status.length = wordSize ∧
        statusOk status = true)) := by
  by_cases hlen : str.length = wordSize ∧ status.length = wordSize
  · by_cases hok : statusOk status = true
    · rw [update_eq_filter wordSize fw str status hsz hlen.1 hlen.2 hok]
      refine ⟨fun e st h => absurd h (by simp), ?_, ?_⟩
      · rintro ⟨p, h⟩
        exact absurd h (by simp)
      · intro h
        exact absurd ⟨hlen.1, hlen.2, hok⟩ h
    · rw [update_error_status wordSize fw str status hlen.1 hlen.2
        (Bool.eq_false_iff.mpr hok)]
      refine ⟨?_, ?_, ?_⟩
      · intro e st h
        simp only [Except.error.injEq, Prod.mk.injEq] at h
        exact ⟨h.2.symm, _, h.1.symm⟩
      · intro _
        exact fun hc => hok hc.2.2
      · intro _
        exact ⟨_, rfl⟩
  · rw [update_error_length wordSize fw str status hlen]
    refine ⟨?_, ?_, ?_⟩
    · intro e st h
      simp only [Except.error.injEq, Prod.mk.injEq] at h
      exact ⟨h.2.symm, _, h.1.symm⟩
    · intro _
      exact fun hc => hlen ⟨hc.1, hc.2.1⟩
    · intro _
      exact ⟨_, rfl⟩

/-- C5 witness: on the `SimpleTest` store with word size 3, the failure
characterization holds for the call `update("abcd","gggg")`. -/
theorem c5_error_iff_witness :
    (∀ e st, Wordle.update 3 exampleStore (chars "abcd") (chars "gggg")
        = .error (e, st) →
      st = exampleStore ∧ ∃ msg, e = .invalidArgument msg) ∧
    ((∃ p, Wordle.update 3 exampleStore (chars "abcd") (chars "gggg")
        = .error p) ↔
      ¬((chars "abcd").length = 3 ∧ (chars "gggg").length = 3 ∧
        statusOk (chars "gggg") = true)) :=
  c5_error_iff 3 exampleStore (chars "abcd") (chars "gggg") rfl

/-- C6: on a word-size-3 store, `update("abcd","gggg")` fails with the
`InvalidArgument` message stating both offending strings and the required
length 3, and `update("abc","abc")` fails with the message naming the
allowed character set `byg`; both errors leave the store untouched. -/
theorem c6_error_messages :
    Wordle.update 3 exampleStore (chars "abcd") (chars "gggg") =
      .error (.invalidArgument
        "Invalid number of characters in [abcd], and/or [gggg], they must contain exactly [3] characters",
        exampleStore) ∧
    Wordle.update 3 exampleStore (chars "abc") (chars "abc") =
      .error (.invalidArgument
        "Invalid status characters in [abc], status characters must be from: [byg]",
        exampleStore) :=
  ⟨rfl, rfl⟩

/-- C7: construction keeps exactly the supplied words whose length equals
`wordSize`, in their supplied order (a sublist of the input), and drops all
others without any error — for both the `FrequentWords` store and the plain
word-list store. -/
theorem c7_construction (wordSize : Nat) (entries : List (Word × Nat))
    (ws : List Word) :
    (FrequentWords.init wordSize entries).wordCountList =
      entries.filter (fun e => e.1.length == wordSize) ∧
    List.Sublist (FrequentWords.init wordSize entries).wordCountList
      entries ∧
    (∀ e, e ∈ (FrequentWords.init wordSize entries).wordCountList ↔
      e ∈ entries ∧ e.1.length = wordSize) ∧
    (PlainWordle.init wordSize ws).words =
      ws.filter (fun w => w.length == wordSize) ∧
    List.Sublist (PlainWordle.init wordSize ws).words ws := by
  refine ⟨rfl, List.filter_sublist _, ?_, rfl, List.filter_sublist _⟩
  intro e
  simp [FrequentWords.init, FrequentWords.retain, List.mem_filter]

/-- C8: under the `update` preconditions, on a store whose word size matches,
the internal index validation can never fire: `update` succeeds, and in
particular never returns an `IndexOutOfRange` error. -/
theorem c8_index_unreachable (wordSize : Nat) (fw : FrequentWords)
    (str status : Word) (hsz : fw.eachWordSize = wordSize)
    (hstr : str.length = wordSize) (hstat : status.length = wordSize)
    (hok : statusOk status = true) :
    (∃ n fw', Wordle.update wordSize fw str status = .ok (n, fw')) ∧
    ∀ msg st, Wordle.update wordSize fw str status ≠
      .error (.indexOutOfRange msg, st) := by
  rw [update_eq_filter wordSize fw str status hsz hstr hstat hok]
  exact ⟨⟨_, _, rfl⟩, fun msg st h => by simp at h⟩

/-- C8 witness: the characterization instantiated on the `SimpleTest` store
with the valid call `update("abf","ggb")`. -/
theorem c8_index_unreachable_witness :
    (∃ n fw', Wordle.update 3 exampleStore (chars "abf") (chars "ggb")
      = .ok (n, fw')) ∧
    ∀ msg st, Wordle.update 3 exampleStore (chars "abf") (chars "ggb") ≠
      .error (.indexOutOfRange msg, st) :=
  c8_index_unreachable 3 exampleStore (chars "abf") (chars "ggb") rfl rfl
    rfl rfl

/-- Survival through `update("app","ggb")` on a word of length 3: the word
has `a` at position 0, exactly one `p`, and that `p` at position 1. -/
theorem survives_app_ggb (w : Word) (hw : w.length = 3) :
    survives 3 (chars "app") (chars "ggb") w =
      (charAt w 0 == 'a' && (w.count 'p' == 1) && (charAt w 1 == 'p')) := by
  obtain ⟨a, b, c, rfl⟩ := List.length_eq_three.mp hw
  have h1 : chars "app" = ['a', 'p', 'p'] := rfl
  have h2 : chars "ggb" = ['g', 'g', 'b'] := rfl
  rw [h1, h2]
  simp [survives, survivesAux, bScanCountsAux, bScanPredAux, consumeStr,
    consumeStatus, charAt, nullChar, List.count_cons]
  by_cases hA : a = 'a' <;> by_cases hP : a = 'p' <;> by_cases hB : b = 'p' <;>
    by_cases hC : c = 'p' <;> simp_all

/-- C2 counterexample: with feedback `"gbb"` (as the claim literally says),
the candidate `"apx"` — which has exactly one `p`, at position 1, and `a` at
position 0 — is removed rather than kept: the black mark at position 1 first
removes every candidate with `p` at position 1, and with zero `y`/`g` counts
every candidate containing `p` at all.  The claim as stated is false. -/
theorem c2_counterexample :
    Wordle.update 3 ⟨3, [(chars "apx", 1)]⟩ (chars "app") (chars "gbb") =
      .ok (0, ⟨3, []⟩) ∧
    (chars "apx").count 'p' = 1 ∧ charAt (chars "apx") 1 = 'p' ∧
    charAt (chars "apx") 0 = 'a' ∧ (chars "apx").length = 3 :=
  ⟨rfl, rfl, rfl, rfl, rfl⟩

/-- C2 (amended): the feedback encoding "first `p` correct, second `p`
absent" is `"ggb"`, not `"gbb"`.  On a word-size-3 store of 3-letter words,
`update("app","ggb")` removes every candidate with two or more `p`s and
keeps exactly the candidates with `a` at position 0 and exactly one `p`,
located at position 1 (the position of the first `p`). -/
theorem c2_amended (fw : FrequentWords) (hsz : fw.eachWordSize = 3)
    (hw : ∀ e ∈ fw.wordCountList, e.1.length = 3) :
    ∃ fw', Wordle.update 3 fw (chars "app") (chars "ggb") =
        .ok (fw'.wordCountList.length, fw') ∧
      fw'.wordCountList = fw.wordCountList.filter
        (fun e => charAt e.1 0 == 'a' && (e.1.count 'p' == 1) &&
          (charAt e.1 1 == 'p')) ∧
      (∀ e ∈ fw'.wordCountList, e.1.count 'p' < 2) := by
  have hfeq : fw.wordCountList.filter
      (fun e => survives 3 (chars "app") (chars "ggb") e.1) =
      fw.wordCountList.filter
        (fun e => charAt e.1 0 == 'a' && (e.1.count 'p' == 1) &&
          (charAt e.1 1 == 'p')) :=
    List.filter_congr (fun e he => survives_app_ggb e.1 (hw e he))
  refine ⟨fw.retain (fun e => survives 3 (chars "app") (chars "ggb") e.1),
    update_eq_filter 3 fw (chars "app") (chars "ggb") hsz rfl rfl rfl,
    hfeq, ?_⟩
  intro e he
  rw [FrequentWords.retain] at he
  rw [hfeq] at he
  have hp := (List.mem_filter.mp he).2
  simp only [Bool.and_eq_true, beq_iff_eq] at hp
  omega

/-- C2 witness for the amended claim: on the store
`{"app","apx","xpx"}`, `update("app","ggb")` keeps exactly `"apx"` —
`"app"` (two `p`s) and `"xpx"` (no `a` at 0, `p` at 2) are removed. -/
theorem c2_amended_witness :
    ∃ fw', Wordle.update 3
        ⟨3, [(chars "app", 1), (chars "apx", 2), (chars "xpx", 3)]⟩
        (chars "app") (chars "ggb") =
        .ok (fw'.wordCountList.length, fw') ∧
      fw'.wordCountList =
        (⟨3, [(chars "app", 1), (chars "apx", 2), (chars "xpx", 3)]⟩ :
          FrequentWords).wordCountList.filter
          (fun e => charAt e.1 0 == 'a' && (e.1.count 'p' == 1) &&
            (charAt e.1 1 == 'p')) ∧
      (∀ e ∈ fw'.wordCountList, e.1.count 'p' < 2) :=
  c2_amended ⟨3, [(chars "app", 1), (chars "apx", 2), (chars "xpx", 3)]⟩
    rfl (by decide)

/-- C4: for every initial store (word size matching) and every history of
valid `(guess, feedback)` pairs, the sequential incremental `update` calls
succeed and give exactly the one-pass filter of the original candidate list
against the whole cumulative history. -/
theorem c4_rederivation (wordSize : Nat) :
    ∀ (pairs : List (Word × Word)) (fw : FrequentWords),
      fw.eachWordSize = wordSize →
      (∀ p ∈ pairs, p.1.length = wordSize ∧ p.2.length = wordSize ∧
        statusOk p.2 = true) →
      applyUpdates wordSize pairs fw =
        .ok (fw.retain (fun e => batchConsistent wordSize pairs e.1)) := by
  intro pairs
  induction pairs with
  | nil =>
    intro fw _ _
    simp only [applyUpdates, batchConsistent, List.all_nil]
    rw [FrequentWords.retain_true]
  | cons p rest ih =>
    intro fw hsz hvalid
    obtain ⟨hp1, hp2, hp3⟩ := hvalid p (List.mem_cons_self p rest)
    rw [applyUpdates, update_eq_filter wordSize fw p.1 p.2 hsz hp1 hp2 hp3]
    change applyUpdates wordSize rest _ = _
    rw [ih (fw.retain fun e => survives wordSize p.1 p.2 e.1) hsz
      (fun q hq => hvalid q (List.mem_cons_of_mem p hq))]
    rw [FrequentWords.retain_retain]
    simp only [batchConsistent, List.all_cons]

/-- C4 witness: the `SimpleTest` history `("abf","ggb"), ("abc","ggb")` on
the `SimpleTest` store: the sequential result equals the one-pass filter. -/
theorem c4_rederivation_witness :
    applyUpdates 3 [(chars "abf", chars "ggb"), (chars "abc", chars "ggb")]
        exampleStore =
      .ok (exampleStore.retain (fun e => batchConsistent 3
        [(chars "abf", chars "ggb"), (chars "abc", chars "ggb")] e.1)) :=
  c4_rederivation 3
    [(chars "abf", chars "ggb"), (chars "abc", chars "ggb")]
    exampleStore rfl (by decide)

/-- An all-green status string passes the status-character check. -/
theorem statusOk_replicate (n : Nat) :
    statusOk (List.replicate n 'g') = true := by
  rw [statusOk, List.all_eq_true]
  intro x hx
  rw [List.eq_of_mem_replicate hx]
  rfl

/-- C9: on a store of words of the session length, updating with a guess
of that length and all-green feedback keeps exactly the candidates equal to
the guess and returns their count; in particular, when the guess is not in
the candidate set the result is empty. -/
theorem c9_all_green (wordSize : Nat) (fw : FrequentWords) (guess : Word)
    (hsz : fw.eachWordSize = wordSize)
    (hw : ∀ e ∈ fw.wordCountList, e.1.length = wordSize)
    (hg : guess.length = wordSize) :
    Wordle.update wordSize fw guess (List.replicate wordSize 'g') =
      .ok ((fw.wordCountList.filter (fun e => e.1 == guess)).length,
        { fw with wordCountList :=
          fw.wordCountList.filter (fun e => e.1 == guess) }) ∧
    ((∀ e ∈ fw.wordCountList, e.1 ≠ guess) →
      fw.wordCountList.filter (fun e => e.1 == guess) = []) := by
  have hfeq : fw.wordCountList.filter
      (fun e => survives wordSize guess (List.replicate wordSize 'g') e.1) =
      fw.wordCountList.filter (fun e => e.1 == guess) := by
    apply List.filter_congr
    intro e he
    apply bool_eq_of_iff
    rw [beq_iff_eq, survives,
      survivesAux_all_green wordSize guess e.1 wordSize 0 (by omega)]
    exact charAt_eq_iff_eq wordSize e.1 guess (hw e he) hg
  constructor
  · rw [update_eq_filter wordSize fw guess _ hsz hg
      (List.length_replicate wordSize 'g') (statusOk_replicate wordSize)]
    simp only [FrequentWords.retain, FrequentWords.size]
    rw [hfeq]
  · intro hne
    apply List.filter_eq_nil_iff.mpr
    intro e he
    simp only [beq_iff_eq]
    exact hne e he

/-- C9 witness: on the `SimpleTest` store, `update("abc","ggg")` leaves
exactly the single candidate `"abc"` and returns 1. -/
theorem c9_all_green_witness :
    Wordle.update 3 exampleStore (chars "abc") (List.replicate 3 'g') =
      .ok ((exampleStore.wordCountList.filter
          (fun e => e.1 == chars "abc")).length,
        { exampleStore with wordCountList := exampleStore.wordCountList.filter (fun e => e.1 == chars "abc") }) ∧
    ((∀ e ∈ exampleStore.wordCountList, e.1 ≠ chars "abc") →
      exampleStore.wordCountList.filter (fun e => e.1 == chars "abc")
        = []) :=
  c9_all_green 3 exampleStore (chars "abc") rfl (by decide) rfl

/-- C10: the two `update` implementations check the preconditions in
opposite orders.  The plain word-list implementation reports the
invalid-status-characters error whenever the status has a character outside
`byg`, wrong lengths notwithstanding; the frequency-ranked implementation
reports the wrong-length error before looking at the status characters. -/
theorem c10_check_order :
    (∀ (pw : PlainWordle) (str status : Word), statusOk status = false →
      PlainWordle.update pw str status =
        .error (.invalidArgument (PlainWordle.plainInvalidStatusMsg status),
          pw)) ∧
    (∀ (wordSize : Nat) (fw : FrequentWords) (str status : Word),
      ¬(str.length = wordSize ∧ status.length = wordSize) →
      Wordle.update wordSize fw str status =
        .error (.invalidArgument (invalidLengthMsg str status wordSize),
          fw)) := by
  constructor
  · intro pw str status h
    unfold PlainWordle.update
    rw [if_pos (by simp [h])]
  · intro wordSize fw str status h
    exact update_error_length wordSize fw str status h

/-- C10 witness: with a guess and status that have both the wrong length and
invalid status characters, the plain store reports the status error while
the frequency store reports the length error. -/
theorem c10_check_order_witness :
    PlainWordle.update examplePlainStore (chars "abcd") (chars "xxxx") =
      .error (.invalidArgument
        (PlainWordle.plainInvalidStatusMsg (chars "xxxx")),
        examplePlainStore) ∧
    Wordle.update 3 exampleStore (chars "abcd") (chars "xxxx") =
      .error (.invalidArgument
        (invalidLengthMsg (chars "abcd") (chars "xxxx") 3), exampleStore) :=
  ⟨c10_check_order.1 examplePlainStore (chars "abcd") (chars "xxxx")
      (by decide),
    c10_check_order.2 3 exampleStore (chars "abcd") (chars "xxxx")
      (by decide)⟩

end WordleSpec
